import Mathlib

/-!
Verification of the emailjs SMTP submission client against its
natural-language specification (spec.md).

The repository ships its test suite under `test/` and its build
configuration; the implementation modules (`email.ts`, `smtp/*`) are not
part of the sources available here.  Following the spec, the components
the claims depend on are modelled as executable Lean definitions; each
such definition carries a doc comment beginning `Modelled from the spec:`
naming the missing source it stands in for.  Strings on the wire are
modelled as `List Char`.
-/

namespace EmailJs

/-- Coerces a Lean string literal to the `List Char` wire representation. -/
def str (s : String) : List Char := s.toList

/-- Carriage-return / line-feed pair terminating every SMTP line (spec §6). -/
def crlf : List Char := ['\r', '\n']

/-- Modelled from the spec: the loopback server's MIME parser (mailparser's
`simpleParser`, external to the repository) normalises CRLF line endings in
the decoded body to a single LF.  Lone characters pass through unchanged. -/
def lfNormalize : List Char → List Char
  | [] => []
  | [c] => [c]
  | c :: d :: rest =>
    if c = '\r' ∧ d = '\n' then '\n' :: lfNormalize rest
    else c :: lfNormalize (d :: rest)

/-- Modelled from the spec: §4.2 body emission of the MIME encoder
(`smtp/message.ts`, not under the available sources) for a message whose
only body is the primary plain text — the encoder emits the text followed
by a trailing blank line (scenario 1 of §8: "final blank lines from
trailing CRLF on terminator + parser"). -/
def encoderBody (text : List Char) : List Char := text ++ crlf ++ crlf

/-- Modelled from the spec: §4.3 DATA phase — after encoder completion the
connection emits `CRLF . CRLF`. -/
def dataTerminator : List Char := crlf ++ ['.'] ++ crlf

/-- Octets written on the wire during the DATA phase for a bare text
message (headers omitted; the loopback parser separates them before the
body and they do not affect the recovered `text`). -/
def dataWire (text : List Char) : List Char := encoderBody text ++ dataTerminator

/-- Modelled from the spec: §6 — the DATA terminator is a line containing
exactly `.` preceded and followed by CRLF; the receiving server removes
the terminator line (`.` and its final CRLF, three octets) and keeps the
payload, the CRLF that closed the last payload line included. -/
def serverPayload (wire : List Char) : List Char := wire.take (wire.length - 3)

/-- Text recovered by the loopback server's MIME parser for a bare text
message: terminator stripped, then line endings normalised to LF. -/
def parsedText (text : List Char) : List Char := lfNormalize (serverPayload (dataWire text))

/-- Parsed RFC 5322 mailbox: display name and addr-spec (spec §4.1). -/
structure ParsedAddress where
  name : List Char
  address : List Char
deriving DecidableEq, Repr

/-- Whitespace recognised when trimming address tokens. -/
def isWsp (c : Char) : Bool := c = ' ' ∨ c = '\t'

/-- Drops leading and trailing whitespace. -/
def trimWsp (l : List Char) : List Char :=
  ((l.dropWhile isWsp).reverse.dropWhile isWsp).reverse

/-- Strips one pair of surrounding double quotes from a display name. -/
def unquote (l : List Char) : List Char :=
  if 2 ≤ l.length ∧ l.head? = some '"' ∧ l.getLast? = some '"' then
    (l.drop 1).dropLast
  else l

/-- Modelled from the spec: §4.1 — splits an address-list at commas (and the
semicolon ending a group) that lie outside quoted regions, stripping
parenthesised comments.  Carries the in-quote flag, the comment nesting
depth and the characters of the current entry in reverse. -/
def splitEntries : List Char → Bool → Nat → List Char → List (List Char)
  | [], _, _, acc => [acc.reverse]
  | c :: rest, inQuote, depth, acc =>
    if c = '"' ∧ depth = 0 then splitEntries rest (!inQuote) depth (c :: acc)
    else if inQuote then splitEntries rest inQuote depth (c :: acc)
    else if c = '(' then splitEntries rest inQuote (depth + 1) acc
    else if c = ')' then splitEntries rest inQuote (depth - 1) acc
    else if 0 < depth then splitEntries rest inQuote depth acc
    else if c = ',' ∨ c = ';' then acc.reverse :: splitEntries rest inQuote depth []
    else splitEntries rest inQuote depth (c :: acc)

/-- Modelled from the spec: §4.1 — best-effort parse of a single entry:
an angle-bracketed form yields the display name (unquoted) and the
addr-spec between the brackets; otherwise a leading group label up to `:`
is removed and the remainder is the bare address. -/
def parseEntry (entry : List Char) : Option ParsedAddress :=
  let e := trimWsp entry
  if e = [] then none
  else if e.contains '<' then
    let name := trimWsp (e.takeWhile (fun c => c ≠ '<'))
    let afterLt := (e.dropWhile (fun c => c ≠ '<')).drop 1
    some ⟨unquote name, trimWsp (afterLt.takeWhile (fun c => c ≠ '>'))⟩
  else
    let e2 := if e.contains ':' then (e.dropWhile (fun c => c ≠ ':')).drop 1 else e
    some ⟨[], trimWsp e2⟩

/-- Modelled from the spec: §4.1 Address Parser (`smtp/address.ts`, not
under the available sources) — accepts an RFC 5322 address-list string and
yields `{name, address}` structures, best-effort on malformed input. -/
def addressparser (input : List Char) : List ParsedAddress :=
  (splitEntries input false 0 []).filterMap parseEntry

/-- Header value for address headers: a single string or an array of
strings, as the constructor accepts both (spec §4.4, §9). -/
inductive HeaderValue where
  | single (s : List Char)
  | multiple (ls : List (List Char))
deriving DecidableEq, Repr

/-- Parses an optional address header into its mailbox list; an array is
parsed element-wise and concatenated. -/
def parseHeaderValue : Option HeaderValue → List ParsedAddress
  | none => []
  | some (HeaderValue.single s) => addressparser s
  | some (HeaderValue.multiple ls) => ls.foldr (fun s acc => addressparser s ++ acc) []

/-- Modelled from the spec: §3 Message — the in-memory email restricted to
the fields the claims exercise; `fromHeader` stands for the source's
`from` header (a reserved word here). `text = none` covers both an absent
and a `null` text body. -/
structure Message where
  fromHeader : Option HeaderValue
  toHeader : Option HeaderValue
  ccHeader : Option HeaderValue
  bccHeader : Option HeaderValue
  subject : Option (List Char)
  messageId : Option (List Char)
  text : Option (List Char)
deriving DecidableEq, Repr

/-- Downstream validity of a parsed entry: its address must contain `@`
(spec §4.1 last sentence). -/
def isValidAddress (a : ParsedAddress) : Bool := a.address.contains '@'

/-- Parseable recipients of one optional header. -/
def validRecipients (h : Option HeaderValue) : List ParsedAddress :=
  (parseHeaderValue h).filter isValidAddress

/-- Modelled from the spec: §4.4 and §8 — `checkValidity()` requires
`from` to be present and parse to at least one address, and at least one
of `to`/`cc`/`bcc` to yield at least one parseable recipient, with the
fixed error catalogue of §8. -/
def checkValidity (m : Message) : Bool × Option (List Char) :=
  if (validRecipients m.fromHeader).isEmpty then
    (false, some (str "Message must have a `from` header"))
  else if (validRecipients m.toHeader ++ validRecipients m.ccHeader ++ validRecipients m.bccHeader).isEmpty then
    (false, some (str "Message must have at least one `to`, `cc`, or `bcc` header"))
  else (true, none)

/-- Deduplication keeping the first occurrence of each address; `seen`
accumulates the addresses already kept. -/
def dedupAux (seen : List (List Char)) : List ParsedAddress → List ParsedAddress
  | [] => []
  | a :: rest =>
    if a.address ∈ seen then dedupAux seen rest
    else a :: dedupAux (a.address :: seen) rest

/-- Modelled from the spec: §3 MessageStack — the per-send envelope,
restricted to the fields the claims exercise. -/
structure MessageStack where
  fromAddress : Option ParsedAddress
  toAddresses : List ParsedAddress
  message : Message
deriving DecidableEq, Repr

/-- Recipients of a message as parsed, `to` entries first, then `cc`,
then `bcc`, duplicates included. -/
def parsedRecipients (m : Message) : List ParsedAddress :=
  parseHeaderValue m.toHeader ++ parseHeaderValue m.ccHeader ++ parseHeaderValue m.bccHeader

/-- Modelled from the spec: §4.5 — `createMessageStack(message)` is pure
and builds the MessageStack, deduplicating recipients across `to` then
`cc` then `bcc` in insertion order, first occurrence winning. -/
def createMessageStack (m : Message) : MessageStack :=
  { fromAddress := (validRecipients m.fromHeader).head?
  , toAddresses := dedupAux [] (parsedRecipients m)
  , message := m }

/-- Effective primary body text: a `null` or absent `text` renders as the
empty body. -/
def bodyText (m : Message) : List Char := m.text.getD []

/-- Arguments of one invocation of a send callback: the error (first
argument, `none` on success) and the message handed back on success. -/
structure CbCall where
  err : Option (List Char)
  msg : Option Message
deriving DecidableEq, Repr

/-- Events reaching one send's dispatcher: the protocol dialogue finishing
(`some` carries the fatal error, `none` means success), or an asynchronous
`error` event from the socket. -/
inductive SendEvent where
  | completed (err : Option (List Char))
  | socketError (e : List Char)
deriving DecidableEq, Repr

/-- Dispatcher bookkeeping for one `send(message, cb)` call: whether the
send is still in progress and the callback invocations recorded so far. -/
structure CallbackLog where
  inProgress : Bool
  calls : List CbCall
deriving DecidableEq, Repr

/-- Log state at the moment `send` enqueues the job. -/
def initialSend : CallbackLog := { inProgress := true, calls := [] }

/-- Modelled from the spec: §4.5 and §7 (`smtp/client.ts`, not under the
available sources) — while a send is in progress, its completion or a
socket error invokes the callback once (error first argument on failure,
`(null, message)` on success) and ends the send; errors that occur while
no send is in progress are swallowed after resetting state, so the
callback is never invoked a second time. -/
def dispatchEvent (m : Message) (s : CallbackLog) : SendEvent → CallbackLog
  | SendEvent.completed err =>
    if s.inProgress then
      { inProgress := false
      , calls := s.calls ++ [⟨err, if err.isNone then some m else none⟩] }
    else s
  | SendEvent.socketError e =>
    if s.inProgress then
      { inProgress := false, calls := s.calls ++ [⟨some e, none⟩] }
    else s

/-- Folds a whole event trace through the dispatcher. -/
def dispatchEvents (m : Message) (s : CallbackLog) (evs : List SendEvent) : CallbackLog :=
  evs.foldl (dispatchEvent m) s

/-- Callback arguments determined by the first event of a send's trace. -/
def outcomeOf (m : Message) : SendEvent → CbCall
  | SendEvent.completed none => ⟨none, some m⟩
  | SendEvent.completed (some e) => ⟨some e, none⟩
  | SendEvent.socketError e => ⟨some e, none⟩

/-- Reply to one SMTP command: three-digit status code and text (spec §4.3). -/
structure Reply where
  code : Nat
  message : List Char
deriving DecidableEq, Repr

/-- Result of the RCPT TO dialogue for one recipient: how many RCPT
commands were written, the error surfaced (none on success), and whether
the connection was torn down. -/
structure RcptResult where
  attempts : Nat
  error : Option (List Char)
  connectionClosed : Bool
deriving DecidableEq, Repr

/-- Modelled from the spec: §4.5 Greylist retry and §7 (`smtp/client.ts`,
not under the available sources) — `replies n` is the server's reply to
the (n+1)-st RCPT TO for the recipient.  A 250 accepts; a 450 is retried
exactly once after a short backoff without tearing the connection down; a
second failure surfaces `bad response on command 'RCPT': <message>`; any
other code is a protocol error fatal to the connection. -/
def rcptDialogue (replies : Nat → Reply) : RcptResult :=
  let r0 := replies 0
  if r0.code = 250 then ⟨1, none, false⟩
  else if r0.code = 450 then
    let r1 := replies 1
    if r1.code = 250 then ⟨2, none, false⟩
    else ⟨2, some (str "bad response on command 'RCPT': " ++ r1.message), false⟩
  else ⟨1, some (str "bad response on command 'RCPT': " ++ r0.message), true⟩

/-- Callback trace of a send whose RCPT phase runs the greylist dialogue
and whose outcome is then dispatched to the user callback. -/
def greylistSendCalls (m : Message) (replies : Nat → Reply) : List CbCall :=
  (dispatchEvents m initialSend [SendEvent.completed (rcptDialogue replies).error]).calls

/-- Client/queue state observable through `ready`, `sending` and
`smtp.state()`; `pending` holds the queued jobs (each flagged `true` when
its user callback throws synchronously) and `executed` the jobs whose
callback has been invoked, oldest first. -/
structure QueueState where
  pending : List Bool
  executed : List Bool
  sending : Bool
  ready : Bool
  smtpState : Nat
deriving DecidableEq, Repr

/-- Modelled from the spec: §4.5 Queue invariant and §7 (`smtp/client.ts`,
not under the available sources) — one dispatcher cycle in the claim's
scenario (every dialogue fails fatally, as with the TLS-only loopback
server of `test/queue.ts`): the head job drives the connection, the
failure destroys the connection (`ready` false, state NOT_CONNECTED), the
job is removed from the queue before its callback runs — so a callback
that throws synchronously cannot lose the head position — and the
callback is invoked. -/
def runFailingJob (s : QueueState) : QueueState :=
  match s.pending with
  | [] => s
  | j :: rest =>
    { pending := rest
    , executed := s.executed ++ [j]
    , sending := true
    , ready := false
    , smtpState := 0 }

/-- Runs dispatcher cycles until the queue is empty; the final cycle finds
an empty queue and resets `sending` (spec §4.5: "if the queue is empty,
`sending` resets to false"). -/
def drainQueueAux : Nat → QueueState → QueueState
  | 0, s => { s with sending := false }
  | n + 1, s => drainQueueAux n (runFailingJob s)

/-- Drains the whole queue. -/
def drainQueue (s : QueueState) : QueueState := drainQueueAux s.pending.length s

/-- Client state right after the jobs have been enqueued and before the
first dispatcher cycle: nothing executed, connection never established. -/
def initialQueue (jobs : List Bool) : QueueState :=
  { pending := jobs
  , executed := []
  , sending := decide (jobs ≠ [])
  , ready := false
  , smtpState := 0 }

/-- Modelled from the spec: §4.5 constructor requirement and §7
Configuration (`smtp/client.ts`, not under the available sources) — the
constructor receives the options object as key/value pairs and fails at
construction when `password` is supplied without `user`; only the key
`user` satisfies the requirement. -/
def smtpClientNew (options : List (List Char × List Char)) : Except (List Char) Unit :=
  if (options.lookup (str "password")).isSome ∧ (options.lookup (str "user")).isNone then
    Except.error (str "`password` cannot be set without `user`")
  else Except.ok ()

/-- Modelled from the spec: §4.2 — message-id handling of the header
assembler (`smtp/message.ts`, not under the available sources): when
absent, a fresh id `<timestamp.random@hostname>` is generated; when
supplied without enclosing angle brackets, the brackets are added. -/
def fillMessageId (supplied : Option (List Char)) (timestamp random hostname : List Char) : List Char :=
  match supplied with
  | none => ['<'] ++ timestamp ++ ['.'] ++ random ++ ['@'] ++ hostname ++ ['>']
  | some v =>
    if v.head? = some '<' ∧ v.getLast? = some '>' then v
    else ['<'] ++ v ++ ['>']

/-- Characters Q-encoding passes through unchanged: printable ASCII other
than `=`, `?`, `_` and the space (RFC 2047 Q-encoding, spec §4.2). -/
def qSafe (c : Char) : Bool :=
  33 ≤ c.toNat ∧ c.toNat ≤ 126 ∧ c ≠ '=' ∧ c ≠ '?' ∧ c ≠ '_'

/-- Upper-case hexadecimal digits. -/
def hexDigits : List Char := str "0123456789ABCDEF"

/-- Renders one byte as a Q-encoding `=XX` escape. -/
def hexByte (b : Nat) : List Char :=
  ['=', hexDigits.getD (b / 16 % 16) '0', hexDigits.getD (b % 16) '0']

/-- Q-encodes one character: space becomes `_`, safe characters pass
through, everything else is emitted as `=XX` escapes of its UTF-8 bytes. -/
def qEncodeChar (c : Char) : List Char :=
  if c = ' ' then ['_']
  else if qSafe c then [c]
  else (String.utf8EncodeChar c).foldr (fun b acc => hexByte b.toNat ++ acc) []

/-- Modelled from the spec: §4.2 — the header assembler renders the
subject value as an RFC 2047 Q-encoded word `=?UTF-8?Q?...?=`
unconditionally (the tests expect this for all-ASCII subjects too).  This
models a single encoded-word; §4.2's 75-character splitting only affects
subjects whose encoding exceeds that length. -/
def encodeSubject (subject : List Char) : List Char :=
  str "=?UTF-8?Q?" ++ subject.foldr (fun c acc => qEncodeChar c ++ acc) [] ++ str "?="

/-- Test vector of `client deduplicates recipients` (`test/client.ts`):
the same recipient in `to`, `cc` and `bcc`. -/
def gannonMessage : Message :=
  { fromHeader := some (HeaderValue.single (str "zelda@gmail.com"))
  , toHeader := some (HeaderValue.single (str "gannon@gmail.com"))
  , ccHeader := some (HeaderValue.single (str "gannon@gmail.com"))
  , bccHeader := some (HeaderValue.single (str "gannon@gmail.com"))
  , subject := none
  , messageId := none
  , text := none }

/-- Message whose `from` header is present but yields no parseable
address (no `@`), while `to` yields one. -/
def badFromMessage : Message :=
  { fromHeader := some (HeaderValue.single (str "garbage"))
  , toHeader := some (HeaderValue.single (str "pooh@gmail.com"))
  , ccHeader := none
  , bccHeader := none
  , subject := none
  , messageId := none
  , text := none }

/-- Message with no headers at all (`new Message({})` of
`test/message.ts`). -/
def noFromMessage : Message :=
  { fromHeader := none
  , toHeader := none
  , ccHeader := none
  , bccHeader := none
  , subject := none
  , messageId := none
  , text := none }

/-- Message of the greylist tests (`test/client.ts`). -/
def poohMessage : Message :=
  { fromHeader := some (HeaderValue.single (str "piglet@gmail.com"))
  , toHeader := none
  , ccHeader := none
  , bccHeader := some (HeaderValue.single (str "pooh@gmail.com"))
  , subject := some (str "this is a test TEXT message from emailjs")
  , messageId := none
  , text := some (str "hello friend, i hope this message finds you well.") }

/-- Message of the `empty text message` test (`test/message.ts`): valid
headers, explicitly empty text body. -/
def emptyTextMessage : Message :=
  { fromHeader := some (HeaderValue.single (str "zelda@gmail.com"))
  , toHeader := some (HeaderValue.single (str "gannon@gmail.com"))
  , ccHeader := none
  , bccHeader := none
  , subject := none
  , messageId := none
  , text := some [] }

theorem lfNormalize_cons_of_ne_cr (c : Char) (l : List Char) (hc : c ≠ '\r') :
    lfNormalize (c :: l) = c :: lfNormalize l := by
  cases l with
  | nil => simp [lfNormalize]
  | cons d rest => simp [lfNormalize, hc]

theorem lfNormalize_append_of_no_cr (l rest : List Char) (h : '\r' ∉ l) :
    lfNormalize (l ++ rest) = l ++ lfNormalize rest := by
  induction l with
  | nil => simp
  | cons c tl ih =>
    have hc : c ≠ '\r' := fun hc => h (hc ▸ List.mem_cons_self c tl)
    have htl : '\r' ∉ tl := fun hm => h (List.mem_cons_of_mem c hm)
    rw [List.cons_append, lfNormalize_cons_of_ne_cr c _ hc, ih htl, List.cons_append]

theorem serverPayload_dataWire (text : List Char) :
    serverPayload (dataWire text) = text ++ crlf ++ crlf ++ crlf := by
  simp [serverPayload, dataWire, encoderBody, dataTerminator, crlf,
    List.take_append_eq_append_take, List.length_append]

theorem parsedText_eq (text : List Char) (h : '\r' ∉ text) :
    parsedText text = text ++ ['\n', '\n', '\n'] := by
  have hassoc : text ++ crlf ++ crlf ++ crlf = text ++ (crlf ++ crlf ++ crlf) := by
    simp [List.append_assoc]
  have hnn : lfNormalize (crlf ++ crlf ++ crlf) = ['\n', '\n', '\n'] := by decide
  rw [parsedText, serverPayload_dataWire, hassoc, lfNormalize_append_of_no_cr text _ h, hnn]

theorem dedupAux_nil (seen : List (List Char)) : dedupAux seen [] = [] := rfl

theorem dedupAux_cons_mem (seen : List (List Char)) (a : ParsedAddress) (rest : List ParsedAddress)
    (h : a.address ∈ seen) : dedupAux seen (a :: rest) = dedupAux seen rest := by
  simp [dedupAux, h]

theorem dedupAux_cons_not_mem (seen : List (List Char)) (a : ParsedAddress) (rest : List ParsedAddress)
    (h : a.address ∉ seen) :
    dedupAux seen (a :: rest) = a :: dedupAux (a.address :: seen) rest := by
  simp [dedupAux, h]

theorem dedupAux_sublist (l : List ParsedAddress) (seen : List (List Char)) :
    List.Sublist (dedupAux seen l) l := by
  induction l generalizing seen with
  | nil => simp [dedupAux_nil]
  | cons a rest ih =>
    by_cases h : a.address ∈ seen
    · rw [dedupAux_cons_mem seen a rest h]
      exact List.Sublist.cons a (ih seen)
    · rw [dedupAux_cons_not_mem seen a rest h]
      exact List.Sublist.cons₂ a (ih (a.address :: seen))

theorem mem_address_dedupAux (l : List ParsedAddress) (seen : List (List Char)) (addr : List Char) :
    addr ∈ (dedupAux seen l).map ParsedAddress.address ↔
      addr ∈ l.map ParsedAddress.address ∧ addr ∉ seen := by
  induction l generalizing seen with
  | nil => simp [dedupAux_nil]
  | cons a rest ih =>
    by_cases h : a.address ∈ seen
    · rw [dedupAux_cons_mem seen a rest h, ih seen]
      simp only [List.map_cons, List.mem_cons]
      constructor
      · rintro ⟨hm, hs⟩
        exact ⟨Or.inr hm, hs⟩
      · rintro ⟨hm | hm, hs⟩
        · exact absurd (hm ▸ h) hs
        · exact ⟨hm, hs⟩
    · rw [dedupAux_cons_not_mem seen a rest h]
      simp only [List.map_cons, List.mem_cons, ih (a.address :: seen)]
      constructor
      · rintro (heq | ⟨hm, hs⟩)
        · exact ⟨Or.inl heq, heq ▸ h⟩
        · exact ⟨Or.inr hm, fun hmem => hs (Or.inr hmem)⟩
      · rintro ⟨heq | hm, hs⟩
        · exact Or.inl heq
        · by_cases heq : addr = a.address
          · exact Or.inl heq
          · exact Or.inr ⟨hm, fun hmem => hmem.elim heq hs⟩

theorem nodup_address_dedupAux (l : List ParsedAddress) (seen : List (List Char)) :
    ((dedupAux seen l).map ParsedAddress.address).Nodup := by
  induction l generalizing seen with
  | nil => simp [dedupAux_nil]
  | cons a rest ih =>
    by_cases h : a.address ∈ seen
    · rw [dedupAux_cons_mem seen a rest h]
      exact ih seen
    · rw [dedupAux_cons_not_mem seen a rest h]
      simp only [List.map_cons, List.nodup_cons]
      refine ⟨?_, ih (a.address :: seen)⟩
      intro hmem
      exact ((mem_address_dedupAux rest (a.address :: seen) a.address).mp hmem).2
        (List.mem_cons_self _ _)

theorem not_mem_seen_of_mem_dedupAux (l : List ParsedAddress) (seen : List (List Char))
    (p : ParsedAddress) (hp : p ∈ dedupAux seen l) : p.address ∉ seen := by
  have hmem : p.address ∈ (dedupAux seen l).map ParsedAddress.address :=
    List.mem_map_of_mem ParsedAddress.address hp
  exact ((mem_address_dedupAux l seen p.address).mp hmem).2

theorem find_dedupAux (l : List ParsedAddress) (seen : List (List Char)) (p : ParsedAddress)
    (hp : p ∈ dedupAux seen l) :
    l.find? (fun q => q.address == p.address) = some p := by
  induction l generalizing seen with
  | nil => exact absurd hp (by simp [dedupAux_nil])
  | cons a rest ih =>
    by_cases h : a.address ∈ seen
    · rw [dedupAux_cons_mem seen a rest h] at hp
      have hns : p.address ∉ seen := not_mem_seen_of_mem_dedupAux rest seen p hp
      have hne : p.address ≠ a.address := fun he => hns (he ▸ h)
      have hpa : ¬(a.address == p.address) = true := by
        simp only [beq_iff_eq]
        exact fun he => hne he.symm
      rw [List.find?_cons_of_neg rest hpa]
      exact ih seen hp
    · rw [dedupAux_cons_not_mem seen a rest h] at hp
      rcases List.mem_cons.mp hp with heq | hmem
      · subst heq
        exact List.find?_cons_of_pos rest (beq_self_eq_true p.address)
      · have hns : p.address ∉ a.address :: seen :=
          not_mem_seen_of_mem_dedupAux rest (a.address :: seen) p hmem
        have hne : p.address ≠ a.address := fun he => hns (he ▸ List.mem_cons_self _ _)
        have hpa : ¬(a.address == p.address) = true := by
          simp only [beq_iff_eq]
          exact fun he => hne he.symm
        rw [List.find?_cons_of_neg rest hpa]
        exact ih (a.address :: seen) hmem

theorem count_eq_one_of_nodup_mem {α : Type} [BEq α] [LawfulBEq α] {l : List α} {a : α}
    (hn : l.Nodup) (ha : a ∈ l) : List.count a l = 1 := by
  induction l with
  | nil => cases ha
  | cons b rest ih =>
    rcases List.nodup_cons.mp hn with ⟨hb, hrest⟩
    rw [List.count_cons]
    rcases List.mem_cons.mp ha with rfl | hmem
    · rw [List.count_eq_zero.mpr hb, beq_self_eq_true]
      simp
    · have hne : (b == a) = false := beq_eq_false_iff_ne.mpr (fun he => hb (he ▸ hmem))
      rw [ih hrest hmem, hne]
      simp

theorem dispatchEvent_not_inProgress (m : Message) (s : CallbackLog) (ev : SendEvent)
    (h : s.inProgress = false) : dispatchEvent m s ev = s := by
  cases ev <;> simp [dispatchEvent, h]

theorem dispatchEvents_not_inProgress (m : Message) (s : CallbackLog) (evs : List SendEvent)
    (h : s.inProgress = false) : dispatchEvents m s evs = s := by
  induction evs with
  | nil => rfl
  | cons e rest ih =>
    show dispatchEvents m (dispatchEvent m s e) rest = s
    rw [dispatchEvent_not_inProgress m s e h]
    exact ih

theorem dispatchEvent_initial (m : Message) (e : SendEvent) :
    dispatchEvent m initialSend e = { inProgress := false, calls := [outcomeOf m e] } := by
  cases e with
  | completed err => cases err <;> simp [dispatchEvent, initialSend, outcomeOf]
  | socketError msg => simp [dispatchEvent, initialSend, outcomeOf]

/-- C1: for every SMTPClient and every `send(message, cb)`, the callback
is invoked exactly once — error first argument on fatal failure, `(null,
message)` on success — even if the socket emits further asynchronous
error events after the callback has fired: however the send's dialogue
terminates (event `e`) and whatever events follow (`evs`), the recorded
callback invocations are exactly the one for `e`. -/
theorem claim_C1_callback_exactly_once (m : Message) (e : SendEvent) (evs : List SendEvent) :
    (dispatchEvents m initialSend (e :: evs)).calls = [outcomeOf m e] := by
  show (dispatchEvents m (dispatchEvent m initialSend e) evs).calls = [outcomeOf m e]
  rw [dispatchEvent_initial m e, dispatchEvents_not_inProgress m _ evs rfl]

/-- C2 (counterexample): the claim says the text recovered for a bare
ASCII body equals `M.text + "\n"`; at `text = "hi"` the model recovers
`"hi\n\n\n"` — the repository's own test (`test/message.ts`, `simple text
message`) asserts `msg.text + '\n\n\n'` — so the claim as stated is
false. -/
theorem claim_C2_counterexample : parsedText (str "hi") ≠ str "hi" ++ ['\n'] := by decide

/-- C2 (amended): for every Message with an ASCII text body (no carriage
returns), the text recovered by the loopback server's MIME parser equals
`M.text + "\n\n\n"`. -/
theorem claim_C2_roundtrip (text : List Char) (h : '\r' ∉ text) :
    parsedText text = text ++ str "\n\n\n" := by
  rw [parsedText_eq text h]
  rfl

theorem claim_C2_witness :
    ('\r' ∉ str "hi") ∧ parsedText (str "hi") = str "hi" ++ str "\n\n\n" :=
  ⟨by decide, claim_C2_roundtrip (str "hi") (by decide)⟩

/-- C3: `createMessageStack` is pure (a function of the message) and its
`to` list is the parsed `to` then `cc` then `bcc` recipients in insertion
order (a sublist of the concatenation, same addresses), each address at
most once, the first occurrence winning; an address present anywhere —
in particular in all three headers — appears exactly once. -/
theorem claim_C3_stack_dedup (m : Message) :
    List.Sublist (createMessageStack m).toAddresses (parsedRecipients m) ∧
    (∀ addr, addr ∈ (createMessageStack m).toAddresses.map ParsedAddress.address ↔
        addr ∈ (parsedRecipients m).map ParsedAddress.address) ∧
    ((createMessageStack m).toAddresses.map ParsedAddress.address).Nodup ∧
    (∀ p ∈ (createMessageStack m).toAddresses,
        (parsedRecipients m).find? (fun q => q.address == p.address) = some p) ∧
    (∀ addr, addr ∈ (parsedRecipients m).map ParsedAddress.address →
        List.count addr ((createMessageStack m).toAddresses.map ParsedAddress.address) = 1) := by
  have hto : (createMessageStack m).toAddresses = dedupAux [] (parsedRecipients m) := rfl
  refine ⟨?_, ?_, ?_, ?_, ?_⟩
  · rw [hto]
    exact dedupAux_sublist (parsedRecipients m) []
  · intro addr
    rw [hto, mem_address_dedupAux]
    simp
  · rw [hto]
    exact nodup_address_dedupAux (parsedRecipients m) []
  · intro p hp
    rw [hto] at hp
    exact find_dedupAux (parsedRecipients m) [] p hp
  · intro addr hmem
    refine count_eq_one_of_nodup_mem ?_ ?_
    · rw [hto]
      exact nodup_address_dedupAux (parsedRecipients m) []
    · rw [hto, mem_address_dedupAux]
      exact ⟨hmem, by simp⟩

theorem claim_C3_witness :
    List.count (str "gannon@gmail.com")
        ((createMessageStack gannonMessage).toAddresses.map ParsedAddress.address) = 1 ∧
    (createMessageStack gannonMessage).toAddresses.length = 1 :=
  ⟨(claim_C3_stack_dedup gannonMessage).2.2.2.2 (str "gannon@gmail.com") (by decide), by decide⟩

/-- C4 (counterexample): the claim says `from` merely *present* plus one
parseable recipient yields `isValid = true`; per the spec (§4.4) `from`
must also parse to an address, so a message with `from: "garbage"` and
`to: "pooh@gmail.com"` is rejected with the `from` error. -/
theorem claim_C4_counterexample :
    badFromMessage.fromHeader ≠ none ∧
    validRecipients badFromMessage.toHeader ≠ [] ∧
    checkValidity badFromMessage ≠ (true, none) ∧
    checkValidity badFromMessage = (false, some (str "Message must have a `from` header")) := by
  decide

/-- C4 (amended): `checkValidity` returns the `from` error when `from` is
absent (more generally whenever `from` yields no parseable address), the
recipient error when `from` yields an address but none of `to`/`cc`/`bcc`
yields a parseable recipient, and `(true, undefined)` when `from` yields
an address and at least one recipient parses. -/
theorem claim_C4_validity (m : Message) :
    (m.fromHeader = none →
      checkValidity m = (false, some (str "Message must have a `from` header"))) ∧
    (validRecipients m.fromHeader = [] →
      checkValidity m = (false, some (str "Message must have a `from` header"))) ∧
    (validRecipients m.fromHeader ≠ [] →
      validRecipients m.toHeader ++ validRecipients m.ccHeader ++ validRecipients m.bccHeader = [] →
      checkValidity m = (false, some (str "Message must have at least one `to`, `cc`, or `bcc` header"))) ∧
    (validRecipients m.fromHeader ≠ [] →
      validRecipients m.toHeader ++ validRecipients m.ccHeader ++ validRecipients m.bccHeader ≠ [] →
      checkValidity m = (true, none)) := by
  refine ⟨?_, ?_, ?_, ?_⟩
  · intro h
    have hemp : validRecipients m.fromHeader = [] := by
      rw [h]
      rfl
    rw [checkValidity]
    simp [List.isEmpty_iff, hemp]
  · intro hemp
    rw [checkValidity]
    simp [List.isEmpty_iff, hemp]
  · intro hf hr
    rw [checkValidity]
    simp [List.isEmpty_iff, hf, hr]
  · intro hf hr
    have h1 : ¬((validRecipients m.fromHeader).isEmpty = true) :=
      fun hl => hf (List.isEmpty_iff.mp hl)
    have h2 :
        ¬((validRecipients m.toHeader ++ validRecipients m.ccHeader ++
            validRecipients m.bccHeader).isEmpty = true) :=
      fun hl => hr (List.isEmpty_iff.mp hl)
    rw [checkValidity, if_neg h1, if_neg h2]

theorem claim_C4_witness :
    checkValidity noFromMessage = (false, some (str "Message must have a `from` header")) ∧
    checkValidity gannonMessage = (true, none) :=
  ⟨(claim_C4_validity noFromMessage).1 rfl,
    (claim_C4_validity gannonMessage).2.2.2 (by decide) (by decide)⟩

/-- C5: a 450 reply to RCPT TO is retried exactly once (two RCPT commands
in total) without tearing down the connection; a 250 on the retry makes
the send succeed with the callback fired once with `(null, message)`,
while a second 450 fails the send with
`bad response on command 'RCPT': <server message>`. -/
theorem claim_C5_greylist (m : Message) (replies : Nat → Reply)
    (h0 : (replies 0).code = 450) :
    (rcptDialogue replies).attempts = 2 ∧
    (rcptDialogue replies).connectionClosed = false ∧
    ((replies 1).code = 250 → greylistSendCalls m replies = [⟨none, some m⟩]) ∧
    ((replies 1).code = 450 →
      greylistSendCalls m replies =
        [⟨some (str "bad response on command 'RCPT': " ++ (replies 1).message), none⟩]) := by
  refine ⟨?_, ?_, ?_, ?_⟩
  · rw [rcptDialogue]
    simp only [h0]
    by_cases h1 : (replies 1).code = 250 <;> simp [h1]
  · rw [rcptDialogue]
    simp only [h0]
    by_cases h1 : (replies 1).code = 250 <;> simp [h1]
  · intro h1
    simp [greylistSendCalls, dispatchEvents, dispatchEvent, initialSend, rcptDialogue, h0, h1]
  · intro h1
    simp [greylistSendCalls, dispatchEvents, dispatchEvent, initialSend, rcptDialogue, h0, h1]

theorem claim_C5_witness :
    greylistSendCalls poohMessage (fun _ => ⟨450, str "greylist"⟩) =
      [⟨some (str "bad response on command 'RCPT': " ++ str "greylist"), none⟩] :=
  (claim_C5_greylist poohMessage (fun _ => ⟨450, str "greylist"⟩) rfl).2.2.2 rfl

theorem drainQueueAux_spec (jobs : List Bool) (ex : List Bool) (sb : Bool) :
    drainQueueAux jobs.length
        { pending := jobs, executed := ex, sending := sb, ready := false, smtpState := 0 } =
      { pending := [], executed := ex ++ jobs, sending := false, ready := false, smtpState := 0 } := by
  induction jobs generalizing ex sb with
  | nil => simp [drainQueueAux]
  | cons j rest ih =>
    show drainQueueAux (rest.length + 1) _ = _
    rw [drainQueueAux, runFailingJob]
    simp only
    rw [ih (ex ++ [j]) true]
    simp

/-- C6: synchronous errors thrown by user callbacks do not corrupt the
queue — draining it executes every queued job exactly once, in order,
whether or not its callback throws — and once every job has failed the
client satisfies `sending = false`, `ready = false` and
`smtp.state() = 0` (NOT_CONNECTED). -/
theorem claim_C6_queue_survives (jobs : List Bool) :
    drainQueue (initialQueue jobs) =
      { pending := [], executed := jobs, sending := false, ready := false, smtpState := 0 } := by
  have h := drainQueueAux_spec jobs [] (decide (jobs ≠ []))
  simpa [drainQueue, initialQueue] using h

/-- C7: constructing an SMTPClient with `password` but no `user` fails at
construction; supplying both succeeds; a key other than `user` (such as
`username`) does not satisfy the requirement. -/
theorem claim_C7_password_requires_user (u p : List Char) :
    (∃ e, smtpClientNew [(str "password", p)] = Except.error e) ∧
    smtpClientNew [(str "user", u), (str "password", p)] = Except.ok () ∧
    (∃ e, smtpClientNew [(str "username", u), (str "password", p)] = Except.error e) :=
  ⟨⟨_, rfl⟩, rfl, ⟨_, rfl⟩⟩

/-- C8: when `message-id` is absent the outgoing header is a generated id
of the shape `<...@...>` (matching `/^<.*@.*>$/`); when supplied without
enclosing angle brackets, the transmitted id is `'<' + supplied + '>'`. -/
theorem claim_C8_message_id (timestamp random hostname : List Char) :
    (∃ a b, fillMessageId none timestamp random hostname = ['<'] ++ a ++ ['@'] ++ b ++ ['>']) ∧
    (∀ v : List Char, ¬(v.head? = some '<' ∧ v.getLast? = some '>') →
      fillMessageId (some v) timestamp random hostname = ['<'] ++ v ++ ['>']) := by
  constructor
  · refine ⟨timestamp ++ ['.'] ++ random, hostname, ?_⟩
    simp [fillMessageId]
  · intro v hv
    simp [fillMessageId, hv]

theorem claim_C8_witness :
    fillMessageId (some (str "special id")) (str "lx1j3k") (str "8c9f2a") (str "localhost") =
      str "<special id>" := by
  have h := (claim_C8_message_id (str "lx1j3k") (str "8c9f2a") (str "localhost")).2
    (str "special id") (by decide)
  rw [h]
  decide

theorem foldr_qEncode_of_safe (s : List Char) (hs : ∀ c ∈ s, qSafe c = true ∨ c = ' ') :
    s.foldr (fun c acc => qEncodeChar c ++ acc) [] =
      s.map (fun c => if c = ' ' then '_' else c) := by
  induction s with
  | nil => rfl
  | cons c rest ih =>
    have hc := hs c (List.mem_cons_self _ _)
    have hrest : ∀ d ∈ rest, qSafe d = true ∨ d = ' ' :=
      fun d hd => hs d (List.mem_cons_of_mem _ hd)
    simp only [List.foldr_cons, List.map_cons, ih hrest]
    rcases hc with hq | hsp
    · have hne : c ≠ ' ' := by
        intro he
        rw [he] at hq
        exact absurd hq (by decide)
      simp [qEncodeChar, hne, hq]
    · subst hsp
      simp [qEncodeChar]

/-- C9: a non-empty subject is rendered as an RFC 2047 Q-encoded word
`=?UTF-8?Q?...?=` with spaces replaced by underscores, even when the
subject is entirely ASCII — the encoding is unconditional. -/
theorem claim_C9_subject_qencoded (s : List Char) (hne : s ≠ [])
    (hs : ∀ c ∈ s, qSafe c = true ∨ c = ' ') :
    encodeSubject s =
      str "=?UTF-8?Q?" ++ s.map (fun c => if c = ' ' then '_' else c) ++ str "?=" := by
  rw [encodeSubject, foldr_qEncode_of_safe s hs]

theorem claim_C9_witness :
    encodeSubject (str "this is a test TEXT message from emailjs") =
      str "=?UTF-8?Q?this_is_a_test_TEXT_message_from_emailjs?=" := by
  have h := claim_C9_subject_qencoded (str "this is a test TEXT message from emailjs")
    (by decide) (by decide)
  rw [h]
  decide

/-- C10: a Message with `text: null` or `text: ''` and valid `from`/`to`
headers passes validation and is delivered; the body the receiving server
parses is exactly `"\n\n\n"` — the artifact suffix a non-empty body
receives, applied to the empty body. -/
theorem claim_C10_empty_body (fh th : Option HeaderValue) (t : Option (List Char))
    (hf : validRecipients fh ≠ []) (ht : validRecipients th ≠ [])
    (htext : t = none ∨ t = some []) :
    checkValidity (Message.mk fh th none none none none t) = (true, none) ∧
    parsedText (bodyText (Message.mk fh th none none none none t)) = str "\n\n\n" := by
  constructor
  · rw [checkValidity]
    have hnone : validRecipients (none : Option HeaderValue) = [] := rfl
    simp [List.isEmpty_iff, hf, ht, hnone]
  · have hbody : bodyText (Message.mk fh th none none none none t) = [] := by
      rcases htext with rfl | rfl <;> rfl
    rw [hbody]
    have h := parsedText_eq [] (by simp)
    simpa using h

theorem claim_C10_witness :
    checkValidity emptyTextMessage = (true, none) ∧
    parsedText (bodyText emptyTextMessage) = str "\n\n\n" :=
  claim_C10_empty_body (some (HeaderValue.single (str "zelda@gmail.com")))
    (some (HeaderValue.single (str "gannon@gmail.com"))) (some [])
    (by decide) (by decide) (Or.inr rfl)

end EmailJs
